import Mathlib

/-!
Verification of the prompt-context assembly and tool-calling orchestration
of the Express backend (src/backend/server.js).

The JavaScript code is shallowly embedded: strings are Lean strings handled
through their character lists (so that all definitions evaluate by kernel
reduction), machine timestamps are Int milliseconds, and every fallible
operation returns an Option.  Each definition carries a comment naming the
source lines it is translated from.
-/

/- ===================== JS string primitives ===================== -/

/-- Model of JS `String.prototype.toLowerCase` restricted to ASCII
(the source only compares ASCII identifiers and German text unaffected
by ASCII lowering in the verified scenarios). -/
def lowerChar (c : Char) : Char :=
  if 65 ≤ c.toNat ∧ c.toNat ≤ 90 then Char.ofNat (c.toNat + 32) else c

def jsToLower (s : String) : String := ⟨s.data.map lowerChar⟩

/-- ASCII whitespace, as matched by the `\s` class on the inputs involved. -/
def isWsChar (c : Char) : Bool := c = ' ' ∨ c = '\t' ∨ c = '\n' ∨ c = '\r'

/-- Model of JS `String.prototype.trim`. -/
def jsTrim (s : String) : String :=
  ⟨((s.data.dropWhile isWsChar).reverse.dropWhile isWsChar).reverse⟩

/-- Model of JS `s.substring(0, n)` (code points; the verified inputs are
in the basic plane, where this agrees with UTF-16 units). -/
def strTake (n : Nat) (s : String) : String := ⟨s.data.take n⟩

def splitCharsOn (c : Char) : List Char → List (List Char)
  | [] => [[]]
  | d :: ds =>
    let r := splitCharsOn c ds
    if d = c then [] :: r
    else match r with
      | [] => [[d]]
      | hd :: tl => (d :: hd) :: tl

/-- Model of JS `s.split('\n')` (server.js line 2252). -/
def jsSplitNl (s : String) : List String := (splitCharsOn '\n' s.data).map (⟨·⟩)

def wordsOfAux : List Char → List Char → List (List Char)
  | acc, [] => if acc = [] then [] else [acc.reverse]
  | acc, c :: rest =>
    if isWsChar c then
      (if acc = [] then wordsOfAux [] rest else acc.reverse :: wordsOfAux [] rest)
    else wordsOfAux (c :: acc) rest

/-- Model of JS `s.split(/\s+/)`: runs of whitespace separate the pieces, a
leading run contributes an initial empty string, a trailing run a final
empty string, and the empty input yields a single empty string. -/
def jsSplitWs (s : String) : List String :=
  match s.data with
  | [] => [""]
  | c :: rest =>
    let lead : List String := if isWsChar c then [""] else []
    let trail : List String := if isWsChar ((c :: rest).getLastD 'x') then [""] else []
    lead ++ (wordsOfAux [] (c :: rest)).map (⟨·⟩) ++ trail

def startsWithChars : List Char → List Char → Bool
  | [], _ => true
  | _ :: _, [] => false
  | n :: ns, h :: hs => n = h && startsWithChars ns hs

/-- First occurrence split: returns the part before the needle and the part
after it. -/
def splitFirstSub (needle : List Char) : List Char → Option (List Char × List Char)
  | [] => if needle = [] then some ([], []) else none
  | c :: rest =>
    if startsWithChars needle (c :: rest) then some ([], (c :: rest).drop needle.length)
    else match splitFirstSub needle rest with
      | some (pre, post) => some (c :: pre, post)
      | none => none

/-- Model of JS `String.prototype.includes`. -/
def strIncludes (hay needle : String) : Bool := (splitFirstSub needle.data hay.data).isSome

/- ===================== JSON model ===================== -/

/-- JSON values as produced by `JSON.parse`.  Numbers are restricted to
integers: every numeric literal appearing in the verified scenarios is an
integer, and the tool arguments of the source are strings, objects and
small integers. -/
inductive Json where
  | jnull : Json
  | jbool (b : Bool) : Json
  | jnum (n : Int) : Json
  | jstr (s : String) : Json
  | jarr (xs : List Json) : Json
  | jobj (kvs : List (String × Json)) : Json

def skipWsChars (cs : List Char) : List Char :=
  cs.dropWhile (fun c => c = ' ' || c = '\t' || c = '\n' || c = '\r')

def isDigitChar (c : Char) : Bool := 48 ≤ c.toNat && c.toNat ≤ 57

def digitsToNat (cs : List Char) : Nat :=
  cs.foldl (fun acc c => acc * 10 + (c.toNat - 48)) 0

/-- Parse the body of a JSON string after the opening quote; returns the
decoded characters and the remainder after the closing quote. -/
def parseStrBody : List Char → Option (List Char × List Char)
  | [] => none
  | '"' :: rest => some ([], rest)
  | '\\' :: '"' :: rest => (parseStrBody rest).map (fun p => ('"' :: p.1, p.2))
  | '\\' :: '\\' :: rest => (parseStrBody rest).map (fun p => ('\\' :: p.1, p.2))
  | '\\' :: '/' :: rest => (parseStrBody rest).map (fun p => ('/' :: p.1, p.2))
  | '\\' :: 'b' :: rest => (parseStrBody rest).map (fun p => ('\x08' :: p.1, p.2))
  | '\\' :: 'f' :: rest => (parseStrBody rest).map (fun p => ('\x0c' :: p.1, p.2))
  | '\\' :: 'n' :: rest => (parseStrBody rest).map (fun p => ('\n' :: p.1, p.2))
  | '\\' :: 'r' :: rest => (parseStrBody rest).map (fun p => ('\r' :: p.1, p.2))
  | '\\' :: 't' :: rest => (parseStrBody rest).map (fun p => ('\t' :: p.1, p.2))
  | '\\' :: _ => none
  | c :: rest =>
    if c.toNat < 32 then none
    else (parseStrBody rest).map (fun p => (c :: p.1, p.2))

/-- Lex a JSON integer literal (optional minus, digits). -/
def parseNumLit (cs : List Char) : Option (Int × List Char) :=
  match cs with
  | '-' :: rest =>
    let ds := rest.takeWhile isDigitChar
    if ds = [] then none else some (-(digitsToNat ds : Int), rest.drop ds.length)
  | _ =>
    let ds := cs.takeWhile isDigitChar
    if ds = [] then none else some ((digitsToNat ds : Int), cs.drop ds.length)

mutual

/-- Recursive-descent JSON value reader, fuel-indexed for termination. -/
def parseJsonVal : Nat → List Char → Option (Json × List Char)
  | 0, _ => none
  | fuel + 1, cs =>
    match skipWsChars cs with
    | 'n' :: 'u' :: 'l' :: 'l' :: rest => some (Json.jnull, rest)
    | 't' :: 'r' :: 'u' :: 'e' :: rest => some (Json.jbool true, rest)
    | 'f' :: 'a' :: 'l' :: 's' :: 'e' :: rest => some (Json.jbool false, rest)
    | '"' :: rest => (parseStrBody rest).map (fun p => (Json.jstr ⟨p.1⟩, p.2))
    | '[' :: rest =>
      (match skipWsChars rest with
       | ']' :: rest2 => some (Json.jarr [], rest2)
       | other => (parseJsonElems fuel other).map (fun p => (Json.jarr p.1, p.2)))
    | '{' :: rest =>
      (match skipWsChars rest with
       | '}' :: rest2 => some (Json.jobj [], rest2)
       | other => (parseJsonMembers fuel other).map (fun p => (Json.jobj p.1, p.2)))
    | other =>
      match parseNumLit other with
      | some (n, rest) => some (Json.jnum n, rest)
      | none => none

/-- Comma-separated array elements up to the closing bracket. -/
def parseJsonElems : Nat → List Char → Option (List Json × List Char)
  | 0, _ => none
  | fuel + 1, cs =>
    match parseJsonVal fuel cs with
    | none => none
    | some (v, rest) =>
      match skipWsChars rest with
      | ',' :: rest2 => (parseJsonElems fuel rest2).map (fun p => (v :: p.1, p.2))
      | ']' :: rest2 => some ([v], rest2)
      | _ => none

/-- Comma-separated object members up to the closing brace. -/
def parseJsonMembers : Nat → List Char → Option (List (String × Json) × List Char)
  | 0, _ => none
  | fuel + 1, cs =>
    match skipWsChars cs with
    | '"' :: rest =>
      (match parseStrBody rest with
       | none => none
       | some (key, rest2) =>
         match skipWsChars rest2 with
         | ':' :: rest3 =>
           (match parseJsonVal fuel rest3 with
            | none => none
            | some (v, rest4) =>
              match skipWsChars rest4 with
              | ',' :: rest5 =>
                (parseJsonMembers fuel rest5).map (fun p => ((⟨key⟩, v) :: p.1, p.2))
              | '}' :: rest5 => some ([(⟨key⟩, v)], rest5)
              | _ => none)
         | _ => none)
    | _ => none

end

/-- Model of JS `JSON.parse`: the whole input must be consumed up to
trailing whitespace, otherwise the parse throws (here: none). -/
def parseJson (s : String) : Option Json :=
  match parseJsonVal (s.data.length + 2) s.data with
  | some (j, rest) => if skipWsChars rest = [] then some j else none
  | none => none

def hexDigitChar (n : Nat) : Char :=
  if n < 10 then Char.ofNat (48 + n) else Char.ofNat (87 + n)

def escJsonChars : List Char → List Char
  | [] => []
  | c :: rest =>
    (if c = '"' then ['\\', '"']
     else if c = '\\' then ['\\', '\\']
     else if c = '\n' then ['\\', 'n']
     else if c = '\r' then ['\\', 'r']
     else if c = '\t' then ['\\', 't']
     else if c = '\x08' then ['\\', 'b']
     else if c = '\x0c' then ['\\', 'f']
     else if c.toNat < 32 then
       ['\\', 'u', '0', '0', hexDigitChar (c.toNat / 16), hexDigitChar (c.toNat % 16)]
     else [c]) ++ escJsonChars rest

def jsonQuote (s : String) : String := ⟨'"' :: (escJsonChars s.data ++ ['"'])⟩

mutual

/-- Model of JS `JSON.stringify` (no spacing argument, keys in insertion
order, as in the source at server.js line 749). -/
def jsonStringify : Json → String
  | Json.jnull => "null"
  | Json.jbool true => "true"
  | Json.jbool false => "false"
  | Json.jnum n => toString n
  | Json.jstr s => jsonQuote s
  | Json.jarr xs => "[" ++ jsonStringifyArr xs ++ "]"
  | Json.jobj kvs => "\x7b" ++ jsonStringifyObj kvs ++ "\x7d"

def jsonStringifyArr : List Json → String
  | [] => ""
  | [x] => jsonStringify x
  | x :: y :: rest => jsonStringify x ++ "," ++ jsonStringifyArr (y :: rest)

def jsonStringifyObj : List (String × Json) → String
  | [] => ""
  | [(k, v)] => jsonQuote k ++ ":" ++ jsonStringify v
  | (k, v) :: m :: rest =>
    jsonQuote k ++ ":" ++ jsonStringify v ++ "," ++ jsonStringifyObj (m :: rest)

end

/-- Property access on a parsed JSON value; on duplicate keys the last
occurrence wins, as with JS object construction from `JSON.parse`. -/
def jsonLookupLast (k : String) : List (String × Json) → Option Json
  | [] => none
  | (k2, v) :: rest =>
    match jsonLookupLast k rest with
    | some r => some r
    | none => if k2 = k then some v else none

def jsonGetField (j : Json) (k : String) : Option Json :=
  match j with
  | Json.jobj kvs => jsonLookupLast k kvs
  | _ => none

/- ===================== Hermes tag-format tool calls ===================== -/

def openTagChars : List Char := "<tool_call>".data

def closeTagChars : List Char := "</tool_call>".data

/-- All spans matched by the global non-greedy regex
`/<tool_call>(.*?)<\/tool_call>/gs` of server.js line 736: repeatedly find
the next opening tag, then the nearest following closing tag, and resume
after the closing tag. -/
def extractToolCallSpans : Nat → List Char → List (List Char)
  | 0, _ => []
  | fuel + 1, cs =>
    match splitFirstSub openTagChars cs with
    | none => []
    | some (_, afterOpen) =>
      match splitFirstSub closeTagChars afterOpen with
      | none => []
      | some (inner, rest) => inner :: extractToolCallSpans fuel rest

/-- The `function` part of a normalized call, server.js lines 745-751:
`name` is whatever value the parsed JSON carries under the key name
(absent when the key is missing), `arguments` is `JSON.stringify` of the
value under arguments (absent when that key is missing). -/
structure HermesFunction where
  name : Option Json
  arguments : Option String

structure HermesToolCall where
  type : String
  function : HermesFunction

/-- Model of `parseHermesToolCalls` (server.js lines 730-760): falsy
content gives no calls; each span is trimmed and JSON-parsed; a span that
fails to parse is dropped and scanning continues; text outside the spans
never contributes. -/
def parseHermesToolCalls (content : Option String) : List HermesToolCall :=
  match content with
  | none => []
  | some c =>
    if c = "" then []
    else
      (extractToolCallSpans (c.data.length + 1) c.data).filterMap (fun span =>
        match parseJson (jsTrim ⟨span⟩) with
        | some j =>
          some ⟨"function", ⟨jsonGetField j "name", (jsonGetField j "arguments").map jsonStringify⟩⟩
        | none => none)

/-- Model of `getToolFormat` (server.js lines 432-440). -/
def getToolFormat (model : String) : String :=
  if strIncludes model "hermes" = true ∨ strIncludes model "nous" = true then "hermes"
  else "standard"

/- ===================== Persona memory ===================== -/

/-- A stored fact entry.  Entries written by the chat endpoint carry an id
(server.js line 2332); entries written by the autonomous-agent path carry
none (server.js lines 870-875).  Fields not read by any verified component
(timestamp, source conversation) are omitted. -/
structure MemFact where
  id : Option Nat
  fact : String
deriving DecidableEq, Repr

structure MemSummary where
  id : Option Nat
  text : String
  timestamp : Int
deriving DecidableEq, Repr

structure AutoFact where
  fact : String
  timestamp : Int
deriving DecidableEq, Repr

/-- The persona memory sub-record (canonical facts and summaries with
their id counters, plus the legacy fields read by the context assembly). -/
structure PMemory where
  facts : List MemFact
  summaries : List MemSummary
  nextFactId : Option Nat
  nextSummaryId : Option Nat
  currentSummary : Option String
  manualFacts : List String
  autoFacts : List AutoFact
deriving DecidableEq, Repr

/-- JS `x || d` on the id counters (`undefined` and `0` both fall back),
server.js lines 2327 and 2368. -/
def jsOrNat (x : Option Nat) (d : Nat) : Nat :=
  match x with
  | some n => if n = 0 then d else n
  | none => d

/-- Word-overlap near-duplicate test of server.js lines 2316-2319: the
count of new-fact words present among the existing-fact words, divided by
the new-fact word count (floored at 1), must exceed 0.8.  The floating
comparison `matchCount / Math.max(newWords.length, 1) > 0.8` agrees with
the exact rational test `5 * matchCount > 4 * max len 1` for all word
counts far below 2^50, hence the Nat formulation. -/
def wordOverlapExceeds (existingFact newFact : String) : Bool :=
  let ew := jsSplitWs (jsToLower existingFact)
  let nw := jsSplitWs (jsToLower newFact)
  let matchCount := (nw.filter (fun w => ew.contains w)).length
  5 * matchCount > 4 * max nw.length 1

/-- Near-duplicate check of server.js lines 2313-2320 (same first 50
characters, or word overlap above 0.8). -/
def isDuplicateFact (existing : List MemFact) (factTrimmed : String) : Bool :=
  existing.any (fun e =>
    strTake 50 e.fact == strTake 50 factTrimmed || wordOverlapExceeds e.fact factTrimmed)

/-- Effective next fact id: `memory.nextFactId || existingFacts.length + 1`
(server.js line 2327). -/
def effNextFact (m : PMemory) : Nat := jsOrNat m.nextFactId (m.facts.length + 1)

def effNextSummary (m : PMemory) : Nat := jsOrNat m.nextSummaryId (m.summaries.length + 1)

/-- The save_fact tool handler effect on the stored memory (server.js
lines 2296-2340, database part): trim, reject near-duplicates, otherwise
append with the next id and advance the counter. -/
def save_fact (m : PMemory) (fact : String) : PMemory :=
  let t := jsTrim fact
  if isDuplicateFact m.facts t then m
  else
    { m with
      facts := m.facts ++ [⟨some (effNextFact m), t⟩],
      nextFactId := some (effNextFact m + 1) }

/-- The save_summary tool handler effect (server.js lines 2354-2384):
append a timestamped entry and advance the counter.  `tsStr` is the
locale-formatted wall-clock string embedded in the text, `tsMs` the stored
timestamp. -/
def save_summary (m : PMemory) (tsStr : String) (tsMs : Int) (summary : String) : PMemory :=
  let nid := effNextSummary m
  { m with
    summaries := m.summaries ++ [⟨some nid, "[" ++ tsStr ++ "] " ++ jsTrim summary, tsMs⟩],
    nextSummaryId := some (nid + 1) }

/-- The autonomous-agent save_memory handler effect (server.js lines
835-890): same duplicate check, but the pushed entry has no id and the
counter is untouched. -/
def agentSaveFact (m : PMemory) (fact : String) : PMemory :=
  let t := jsTrim fact
  if isDuplicateFact m.facts t then m
  else { m with facts := m.facts ++ [⟨none, t⟩] }

/-- True max fact id of the unfiltered store:
`allFacts.reduce((max, f) => Math.max(max, f.id || 0), 0)`
(server.js line 1794). -/
def maxFactIdOf (m : PMemory) : Nat :=
  m.facts.foldl (fun acc f => max acc (match f.id with | some i => i | none => 0)) 0

def maxSummaryIdOf (m : PMemory) : Nat :=
  m.summaries.foldl (fun acc s => max acc (match s.id with | some i => i | none => 0)) 0

/- ===================== Cache breakpoint tracker ===================== -/

/-- Cache TTL (server.js line 20). -/
def CACHE_TTL_MINUTES : Nat := 5

def ttlMs : Int := (CACHE_TTL_MINUTES : Int) * 60 * 1000

/-- A cacheState entry as minted at server.js lines 2075-2080. -/
structure CacheEntry where
  messageId : Nat
  maxFactId : Option Nat
  maxSummaryId : Option Nat
  timestamp : Int
deriving DecidableEq, Repr

/-- Validity test of server.js line 1723:
`convCacheState && (now - convCacheState.timestamp) < ttlMs`. -/
def cacheValidB : Option CacheEntry → Int → Bool
  | none, _ => false
  | some st, now => now - st.timestamp < ttlMs

/-- A conversation message as seen by the endpoint. -/
structure Msg where
  id : Option Nat
  role : String
  content : String
deriving DecidableEq, Repr

/-- `m.id && typeof m.id === 'number'` (server.js line 2043); ids are
numbers in this model, so only truthiness remains. -/
def msgHasNumericId (m : Msg) : Bool :=
  match m.id with
  | some n => n ≠ 0
  | none => false

/-- Model of JS `Array.prototype.findIndex`, with none for -1. -/
def jsFindIndex {α : Type} (p : α → Bool) : List α → Option Nat
  | [] => none
  | x :: xs => if p x then some 0 else (jsFindIndex p xs).map (· + 1)

structure CacheStepOut where
  entry : Option CacheEntry
  breakpointIndex : Option Nat
deriving DecidableEq, Repr

/-- The per-conversation breakpoint decision of server.js lines 2037-2086:
inside the guard (more than minUncachedMessages = 3 messages, some message
with a numeric id), an unexpired entry whose anchor message id is found is
reused as the boundary; otherwise a fresh breakpoint is anchored at
position `length - 3 - 1` and, when that anchor has a truthy id, stored
with the supplied max fact/summary ids and the current time. -/
def cacheStep (msgs : List Msg) (entry : Option CacheEntry) (pMaxF pMaxS : Nat)
    (now : Int) : CacheStepOut :=
  if 3 < msgs.length ∧ msgs.any msgHasNumericId = true then
    let found : Option Nat :=
      match entry with
      | some st =>
        if now - st.timestamp < ttlMs ∧ st.messageId ≠ 0 then
          jsFindIndex (fun m => m.id == some st.messageId) msgs
        else none
      | none => none
    match found with
    | some i => ⟨entry, some i⟩
    | none =>
      let bpi := msgs.length - 4
      match (msgs[bpi]?).bind (·.id) with
      | some a =>
        if a ≠ 0 then ⟨some ⟨a, some pMaxF, some pMaxS, now⟩, some bpi⟩
        else ⟨entry, some bpi⟩
      | none => ⟨entry, some bpi⟩
  else ⟨entry, none⟩

/- ===================== Context assembly ===================== -/

/-- `f.id && f.id <= convCacheState.maxFactId` (server.js line 1731). -/
def includeFactB (maxF : Nat) (f : MemFact) : Bool :=
  match f.id with
  | some i => i ≠ 0 && i ≤ maxF
  | none => false

def includeSummaryB (maxS : Nat) (s : MemSummary) : Bool :=
  match s.id with
  | some i => i ≠ 0 && i ≤ maxS
  | none => false

/-- Facts loaded into the Memory block (server.js lines 1726-1736): the
cache cutoff applies only when the entry is unexpired and carries a
maxFactId. -/
def factsIncluded (mem : PMemory) (entry : Option CacheEntry) (now : Int) : List MemFact :=
  match entry with
  | some st =>
    if cacheValidB (some st) now = true then
      match st.maxFactId with
      | some mf => mem.facts.filter (includeFactB mf)
      | none => mem.facts
    else mem.facts
  | none => mem.facts

/-- Summaries surviving the cache cutoff (server.js lines 1744-1754). -/
def summariesIncluded (mem : PMemory) (entry : Option CacheEntry) (now : Int) : List MemSummary :=
  match entry with
  | some st =>
    if cacheValidB (some st) now = true then
      match st.maxSummaryId with
      | some ms => mem.summaries.filter (includeSummaryB ms)
      | none => mem.summaries
    else mem.summaries
  | none => mem.summaries

/-- Stable descending insertion by key, modelling the JS stable
`sort((a, b) => new Date(b.timestamp) - new Date(a.timestamp))`. -/
def insertByTsDesc {α : Type} (ts : α → Int) (x : α) : List α → List α
  | [] => [x]
  | y :: ys => if ts y ≤ ts x then x :: y :: ys else y :: insertByTsDesc ts x ys

def sortByTsDesc {α : Type} (ts : α → Int) (l : List α) : List α :=
  l.foldr (insertByTsDesc ts) []

def joinNl (l : List String) : String := String.intercalate "\n" l

/-- The fact texts joined into the Facts block (server.js line 1739). -/
def blockFactTexts (mem : PMemory) (entry : Option CacheEntry) (now : Int) : List String :=
  (factsIncluded mem entry now).map (·.fact)

/-- The five most recent included summaries, as joined into the Recent
Summaries block (server.js lines 1757-1760). -/
def blockRecentSummaries (mem : PMemory) (entry : Option CacheEntry) (now : Int) : List MemSummary :=
  (sortByTsDesc (·.timestamp) (summariesIncluded mem entry now)).take 5

def blockSummaryTexts (mem : PMemory) (entry : Option CacheEntry) (now : Int) : List String :=
  (blockRecentSummaries mem entry now).map (·.text)

/-- The memoryParts list of server.js lines 1716-1783, in push order. -/
def memoryParts (mem : PMemory) (entry : Option CacheEntry) (now : Int) : List String :=
  let facts := factsIncluded mem entry now
  let summaries := summariesIncluded mem entry now
  let p1 : List String :=
    if facts.isEmpty then [] else ["Facts:\n" ++ joinNl (facts.map (·.fact))]
  let p2 : List String :=
    if summaries.isEmpty then []
    else ["Recent Summaries:\n" ++ joinNl (blockSummaryTexts mem entry now)]
  let p3 : List String :=
    match mem.currentSummary with
    | some cs => if mem.summaries.isEmpty then ["Current State:\n" ++ cs] else []
    | none => []
  let p4 : List String :=
    if mem.manualFacts.isEmpty then [] else ["Manual Notes:\n" ++ joinNl mem.manualFacts]
  let p5 : List String :=
    if mem.autoFacts.isEmpty then []
    else ["Recent (legacy):\n" ++
      joinNl (((sortByTsDesc (·.timestamp) mem.autoFacts).take 5).map (·.fact))]
  p1 ++ p2 ++ p3 ++ p4 ++ p5

/-- The Memory system message, present only when some part is non-empty
(server.js lines 1785-1791). -/
def memoryBlockOf (mem : PMemory) (entry : Option CacheEntry) (now : Int) : List String :=
  let parts := memoryParts mem entry now
  if parts.isEmpty then [] else ["Memory:\n" ++ String.intercalate "\n\n" parts]

/-- Inputs of the system-context assembly: persona system prompt, persona
memory, catalog titles, the resolved attached knowledge files and the
resolved ad hoc reference documents (title and content each). -/
structure AssemblyInput where
  systemPrompt : Option String
  memory : Option PMemory
  catalogTitles : List String
  attached : List (String × String)
  refDocs : List (String × String)
deriving DecidableEq, Repr

/-- The ordered list of system messages built at server.js lines
1691-1848 (system prompt if truthy; memory block; available knowledge
titles; attached knowledge files; reference documents). -/
def systemMessagesOf (inp : AssemblyInput) (entry : Option CacheEntry) (now : Int) :
    List String :=
  (match inp.systemPrompt with
   | some sp => if sp = "" then [] else [sp]
   | none => []) ++
  (match inp.memory with
   | some mem => memoryBlockOf mem entry now
   | none => []) ++
  (if inp.catalogTitles.isEmpty then []
   else ["Available Knowledge Files:\n" ++
     String.intercalate "\n" (inp.catalogTitles.map (fun t => "- " ++ t))]) ++
  inp.attached.map (fun p => "[Attached Knowledge] \"" ++ p.1 ++ "\":\n\n" ++ p.2) ++
  inp.refDocs.map (fun p => "Reference document \"" ++ p.1 ++ "\":\n\n" ++ p.2)

/-- `allSystemContent` (server.js line 1992): the single concatenated
system block. -/
def assembleSystemContent (inp : AssemblyInput) (entry : Option CacheEntry) (now : Int) :
    String :=
  String.intercalate "\n\n---\n\n" (systemMessagesOf inp entry now)

/- ===================== search_knowledge ===================== -/

structure KFile where
  title : String
  content : String
deriving DecidableEq, Repr

structure SearchResult where
  file : String
  line : Nat
  context : String
deriving DecidableEq, Repr

/-- The context string of a match (server.js lines 2257-2259 and 2264):
lines from `max(0, i - 2)` to `min(length - 1, i + 2)` joined with
newlines, truncated to 500 characters. -/
def mkContext (allLines : List String) (i : Nat) : String :=
  let contextStart := i - 2
  let contextEnd := min (allLines.length - 1) (i + 2)
  strTake 500 (String.intercalate "\n"
    ((allLines.drop contextStart).take (contextEnd + 1 - contextStart)))

/-- The inner line loop of server.js lines 2255-2269: push each
case-insensitive match and stop as soon as the accumulated count reaches
the limit. -/
def searchFileLines (title qLower : String) (allLines : List String) (limit : Int) :
    Nat → List String → List SearchResult → List SearchResult
  | _, [], acc => acc
  | i, line :: rest, acc =>
    if strIncludes (jsToLower line) qLower = true then
      let acc2 := acc ++ [⟨title, i + 1, mkContext allLines i⟩]
      if limit ≤ (acc2.length : Int) then acc2
      else searchFileLines title qLower allLines limit (i + 1) rest acc2
    else searchFileLines title qLower allLines limit (i + 1) rest acc

/-- The outer file loop of server.js lines 2249-2271: a file with falsy
content is skipped, and after each file the same limit test may stop the
whole search. -/
def searchKnowledgeGo (qLower : String) (limit : Int) :
    List KFile → List SearchResult → List SearchResult
  | [], acc => acc
  | f :: rest, acc =>
    if f.content = "" then searchKnowledgeGo qLower limit rest acc
    else
      let acc2 := searchFileLines f.title qLower (jsSplitNl f.content) limit 0
        (jsSplitNl f.content) acc
      if limit ≤ (acc2.length : Int) then acc2
      else searchKnowledgeGo qLower limit rest acc2

/-- The search_knowledge tool handler (server.js lines 2232-2271) applied
to the already-fetched file list: `maxResults` defaults to 5 when absent
and is capped by `Math.min(maxResults, 10)`. -/
def searchKnowledge (files : List KFile) (query : String) (maxResults : Option Int) :
    List SearchResult :=
  let mr := maxResults.getD 5
  let limit := min mr 10
  searchKnowledgeGo (jsToLower query) limit files []

/- ===================== Chat orchestration loop ===================== -/

/-- A normalized tool call as delivered in `aiMessage.tool_calls`
(standard format): the function name and the raw JSON arguments string. -/
structure ToolCallRec where
  name : String
  arguments : String
deriving DecidableEq, Repr

/-- One model response: text content plus the structured tool calls the
provider returned (empty when the provider returned none). -/
structure ModelTurn where
  content : String
  tool_calls : List ToolCallRec
deriving DecidableEq, Repr

/-- The request-scoped state threaded through the tool dispatch of
server.js lines 2165-2465: the persona memory, the knowledge catalog, the
notifications issued, the once-per-request guards, the accumulated call
log and the search results returned to the frontend. -/
structure ChatState where
  mem : PMemory
  kfiles : List KFile
  notifications : List (Option Json)
  summaryAlreadySaved : Bool
  factsAlreadySaved : List String
  allToolCalls : List ToolCallRec
  searchResults : List (String × List SearchResult)

/-- Salvage scan of server.js lines 2402-2404: the first position where
`"message"` is followed by optional whitespace, a colon, optional
whitespace, a quote and at least one non-quote character. -/
def trySalvageAt (cs : List Char) : Option (List Char) :=
  if startsWithChars "\"message\"".data cs then
    match skipWsChars (cs.drop 9) with
    | ':' :: r2 =>
      (match skipWsChars r2 with
       | '"' :: r3 =>
         let cap := r3.takeWhile (fun c => c ≠ '"')
         if cap = [] then none else some cap
       | _ => none)
    | _ => none
  else none

def salvageMessageChars : List Char → Option (List Char)
  | [] => none
  | c :: rest =>
    match trySalvageAt (c :: rest) with
    | some m => some m
    | none => salvageMessageChars rest

/-- The files-selection filter of server.js lines 2242-2244 (a
case-insensitive title match; regex metacharacters are not modelled, the
verified scenarios pass no files argument). -/
def selectFiles (kfiles : List KFile) (files : Option Json) : List KFile :=
  match files with
  | some (Json.jarr pats) =>
    if pats.isEmpty then kfiles
    else kfiles.filter (fun f => pats.any (fun p =>
      match p with
      | Json.jstr t => strIncludes (jsToLower f.title) (jsToLower t)
      | _ => false))
  | _ => kfiles

/-- Dispatch of one tool call inside the iteration loop (server.js lines
2227-2444).  Every call is logged in allToolCalls; JSON argument failures
and wrongly-typed required fields leave the state otherwise unchanged
(the code catches and continues). -/
def dispatchCall (tsStr : String) (tsMs : Int) (st : ChatState) (tc : ToolCallRec) :
    ChatState :=
  let st := { st with allToolCalls := st.allToolCalls ++ [tc] }
  if tc.name = "search_knowledge" then
    match parseJson tc.arguments with
    | some j =>
      (match jsonGetField j "query" with
       | some (Json.jstr q) =>
         let mr : Option Int :=
           match jsonGetField j "maxResults" with
           | some (Json.jnum n) => some n
           | _ => none
         let results := searchKnowledge (selectFiles st.kfiles (jsonGetField j "files")) q mr
         { st with searchResults := st.searchResults ++ [(q, results)] }
       | _ => st)
    | none => st
  else if tc.name = "save_fact" then
    match parseJson tc.arguments with
    | some j =>
      (match jsonGetField j "fact" with
       | some (Json.jstr fact) =>
         let factTrimmed := jsTrim fact
         let factKey := strTake 50 factTrimmed
         if st.factsAlreadySaved.contains factKey then st
         else
           { st with
             mem := save_fact st.mem fact,
             factsAlreadySaved := st.factsAlreadySaved ++ [factKey] }
       | _ => st)
    | none => st
  else if tc.name = "save_summary" then
    if st.summaryAlreadySaved then st
    else
      match parseJson tc.arguments with
      | some j =>
        (match jsonGetField j "summary" with
         | some (Json.jstr summary) =>
           { st with
             mem := save_summary st.mem tsStr tsMs summary,
             summaryAlreadySaved := true }
         | _ => st)
      | none => st
  else if tc.name = "send_notification" then
    match parseJson tc.arguments with
    | some j => { st with notifications := st.notifications ++ [jsonGetField j "message"] }
    | none =>
      match salvageMessageChars tc.arguments.data with
      | some m => { st with notifications := st.notifications ++ [some (Json.jstr ⟨m⟩)] }
      | none => st
  else st

def dispatchTurn (tsStr : String) (tsMs : Int) (st : ChatState) (turn : ModelTurn) :
    ChatState :=
  turn.tool_calls.foldl (dispatchCall tsStr tsMs) st

/-- `needsFollowUp` (server.js line 2449). -/
def needsFollowUp (turn : ModelTurn) : Bool :=
  turn.tool_calls.any (fun tc => tc.name == "search_knowledge")

structure LoopOut where
  finalTurn : Option ModelTurn
  state : ChatState
  modelCalls : Nat

/-- The iteration loop of server.js lines 2177-2465, with the completion
provider abstracted as an oracle from the iteration number to the model
response.  A turn without tool calls, or with only fire-and-forget tool
calls, ends the loop with that turn as the final message; a turn whose
calls include search_knowledge continues to the next iteration. -/
def loopGo (oracle : Nat → ModelTurn) (tsStr : String) (tsMs : Int) :
    Nat → Nat → ChatState → LoopOut
  | 0, i, st => ⟨none, st, i⟩
  | fuel + 1, i, st =>
    let turn := oracle i
    if turn.tool_calls.isEmpty then ⟨some turn, st, i + 1⟩
    else
      let st2 := dispatchTurn tsStr tsMs st turn
      if needsFollowUp turn then loopGo oracle tsStr tsMs fuel (i + 1) st2
      else ⟨some turn, st2, i + 1⟩

/-- `for (let iteration = 0; iteration < 3; iteration++)`. -/
def chatLoop (oracle : Nat → ModelTurn) (tsStr : String) (tsMs : Int) (st : ChatState) :
    LoopOut :=
  loopGo oracle tsStr tsMs 3 0 st

/-- The response text: `finalAiMessage?.content || ''` (server.js line
2507). -/
def finalMessageText (out : LoopOut) : String :=
  match out.finalTurn with
  | some t => t.content
  | none => ""

/- ===================== Derived notions and invariants ===================== -/

/-- The assigned ids of the stored facts, in insertion order. -/
def factIds (l : List MemFact) : List Nat := l.filterMap (·.id)

def summaryIds (l : List MemSummary) : List Nat := l.filterMap (·.id)

/-- Inductive invariant of a persona memory: the assigned fact and summary
ids are strictly increasing in insertion order and all lie below the
effective next-counter value. -/
def memInv (m : PMemory) : Prop :=
  (factIds m.facts).Pairwise (· < ·) ∧
  (∀ i ∈ factIds m.facts, i < effNextFact m) ∧
  (summaryIds m.summaries).Pairwise (· < ·) ∧
  (∀ j ∈ summaryIds m.summaries, j < effNextSummary m)

instance (m : PMemory) : Decidable (memInv m) := by
  unfold memInv; infer_instance

/-- The request-start dispatch state (server.js lines 2165-2174). -/
def initChatState (mem : PMemory) (kfiles : List KFile) : ChatState :=
  ⟨mem, kfiles, [], false, [], [], []⟩

/- ===================== Concrete scenario inputs ===================== -/

def c6Input : String :=
  "<tool_call>\x7b\"name\":\"save_fact\",\"arguments\":\x7b\"fact\":\"x\"\x7d\x7d</tool_call> trailing chatter"

def c6Mixed : String :=
  "preamble <tool_call>not json</tool_call>\n<tool_call>\n\x7b\"name\":\"save_fact\",\"arguments\":\x7b\"fact\":\"x\"\x7d\x7d\n</tool_call> epilogue"

def memC1cex : PMemory :=
  ⟨[], [⟨some 1, "s1", 1⟩, ⟨some 2, "s2", 2⟩, ⟨some 3, "s3", 3⟩,
        ⟨some 4, "s4", 4⟩, ⟨some 5, "s5", 5⟩, ⟨some 6, "s6", 6⟩],
   none, none, none, [], []⟩

def memC1w : PMemory :=
  ⟨[⟨some 1, "keep"⟩, ⟨some 9, "over"⟩], [], some 10, none, none, [], []⟩

def entryC1w : CacheEntry := ⟨1, some 5, some 5, 0⟩

def entryC2 : CacheEntry := ⟨5, some 0, some 0, 0⟩

def memC2a : PMemory := ⟨[], [], none, none, some "old", [], []⟩

def memC2w : PMemory :=
  ⟨[⟨some 1, "known fact"⟩], [⟨some 1, "[t] earlier", 1⟩], some 2, some 2, none, [], []⟩

def entryC2w : CacheEntry := ⟨2, some 1, some 1, 0⟩

def msgsC2w : List Msg :=
  [⟨some 1, "user", "a"⟩, ⟨some 2, "assistant", "b"⟩, ⟨some 3, "user", "c"⟩,
   ⟨some 4, "assistant", "d"⟩, ⟨some 5, "user", "e"⟩]

def memC3 : PMemory :=
  ⟨[⟨some 1, "User likes coffee with oat milk"⟩], [], some 2, none, none, [], []⟩

def memC5w : PMemory :=
  ⟨[⟨some 1, "alpha"⟩, ⟨some 2, "beta"⟩], [⟨some 1, "[t] day one", 1⟩],
   some 3, some 2, none, [], []⟩

def c7HermesContent : String :=
  "<tool_call>\n\x7b\"name\":\"save_fact\",\"arguments\":\x7b\"fact\":\"User likes tea\"\x7d\x7d\n</tool_call>"

def c7Turn : ModelTurn := ⟨c7HermesContent, []⟩

def memEmpty : PMemory := ⟨[], [], none, none, none, [], []⟩

def c7Out : LoopOut := chatLoop (fun _ => c7Turn) "ts" 0 (initChatState memEmpty [])

def c8Turn : ModelTurn := ⟨"done", [⟨"save_fact", "\x7b\"fact\":\"w\"\x7d"⟩]⟩

def fileC9 : KFile :=
  ⟨"f", "hit a\nmiss\nhit b\nhit c\nmiss\nhit d\nhit e"⟩

def fileC9one : KFile := ⟨"g", "hit"⟩

def memC10w : PMemory :=
  ⟨[⟨some 1, "chat fact"⟩, ⟨none, "agent fact"⟩], [], some 2, none, none, [], []⟩

def entryC10w : CacheEntry := ⟨1, some 1, some 0, 0⟩

/- ===================== Helper lemmas ===================== -/

theorem insertByTsDesc_perm {α : Type} (ts : α → Int) (x : α) (l : List α) :
    (insertByTsDesc ts x l).Perm (x :: l) := by
  induction l with
  | nil => simp [insertByTsDesc]
  | cons y ys ih =>
    by_cases h : ts y ≤ ts x
    · simp [insertByTsDesc, h]
    · simp only [insertByTsDesc, if_neg h]
      exact (ih.cons y).trans (List.Perm.swap x y ys)

theorem sortByTsDesc_perm {α : Type} (ts : α → Int) (l : List α) :
    (sortByTsDesc ts l).Perm l := by
  induction l with
  | nil => simp [sortByTsDesc]
  | cons x xs ih =>
    simp only [sortByTsDesc, List.foldr_cons]
    exact (insertByTsDesc_perm ts x _).trans (ih.cons x)

theorem jsFindIndex_append_of_some {α : Type} (p : α → Bool) (l l' : List α) (k : Nat)
    (h : jsFindIndex p l = some k) : jsFindIndex p (l ++ l') = some k := by
  induction l generalizing k with
  | nil => simp [jsFindIndex] at h
  | cons x xs ih =>
    simp only [jsFindIndex, List.cons_append] at h ⊢
    by_cases hx : p x
    · simpa [hx] using h
    · simp only [if_neg hx] at h ⊢
      cases hk : jsFindIndex p xs with
      | none => rw [hk] at h; simp at h
      | some j =>
        rw [hk] at h
        simp only [Option.map_some'] at h
        rw [List.append_eq, ih j hk]
        simpa using h

/- ===================== Claim C6 ===================== -/

/-- Claim C6 (confirmed): the tag-format scan extracts every non-greedy
tool_call span (also across newlines), parses the inner text as JSON into
a normalized call, drops a span whose inner text fails JSON parsing
without aborting, and discards all text outside the spans; on the input
with one save_fact span followed by trailing chatter it yields exactly one
normalized save_fact call with arguments fact x. -/
theorem c6_tag_format_extraction :
    parseHermesToolCalls (some c6Input) =
      [⟨"function", ⟨some (Json.jstr "save_fact"), some "\x7b\"fact\":\"x\"\x7d"⟩⟩] ∧
    parseHermesToolCalls (some c6Mixed) =
      [⟨"function", ⟨some (Json.jstr "save_fact"), some "\x7b\"fact\":\"x\"\x7d"⟩⟩] ∧
    parseHermesToolCalls none = [] ∧
    parseHermesToolCalls (some "") = [] := by
  exact ⟨rfl, rfl, rfl, rfl⟩

/- ===================== Claim C7 ===================== -/

/-- Claim C7 (code bug): the endpoint selects the hermes format for a
Hermes-family model id and embeds the tag convention in the system prompt
(server.js lines 2006-2016), but its iteration loop reads only
aiMessage.tool_calls (line 2216) and never applies parseHermesToolCalls
to the response content, unlike the other two call sites of that parse
function (lines 273 and 710).  A response whose content carries a
well-formed tag-format call therefore dispatches nothing, leaves the
memory untouched and returns the raw tag text as the reply, although
parseHermesToolCalls extracts exactly the one call from it. -/
theorem c7_hermes_calls_never_dispatched :
    getToolFormat "nousresearch/hermes-3-llama-3.1-405b" = "hermes" ∧
    c7Out.state.allToolCalls = [] ∧
    c7Out.state.mem = memEmpty ∧
    finalMessageText c7Out = c7HermesContent ∧
    (parseHermesToolCalls (some c7HermesContent)).length = 1 := by
  exact ⟨rfl, rfl, rfl, rfl, rfl⟩

/- ===================== Claim C1 ===================== -/

/-- Claim C1 counterexample: with six summaries in the store and no
breakpoint at all, the oldest summary text s1 does not appear in the
Recent Summaries part of the Memory block (the block keeps only the five
most recent), refuting the claim that every summary is included whenever
no valid breakpoint exists. -/
theorem c1_counterexample :
    cacheValidB none 0 = false ∧
    (⟨some 1, "s1", (1 : Int)⟩ : MemSummary) ∈ memC1cex.summaries ∧
    "s1" ∉ blockSummaryTexts memC1cex none 0 := by
  decide

/-- Claim C1 (amended): with an absent or expired breakpoint the cache
cutoff passes every fact and every summary through unchanged (and the
Facts block lists every fact text; summaries remain subject only to the
five-most-recent display cap); with a valid breakpoint carrying
maxFactId = N, every fact with id greater than N is excluded from the
loaded facts, and symmetrically every summary above maxSummaryId is
excluded from the loaded summaries and from the Recent Summaries block. -/
theorem c1_memory_cutoff (mem : PMemory) (entry : Option CacheEntry) (now : Int) :
    (cacheValidB entry now = false →
      factsIncluded mem entry now = mem.facts ∧
      summariesIncluded mem entry now = mem.summaries ∧
      ∀ f ∈ mem.facts, f.fact ∈ blockFactTexts mem entry now) ∧
    (∀ st, entry = some st → cacheValidB entry now = true →
      (∀ mf, st.maxFactId = some mf →
        ∀ f ∈ mem.facts, ∀ i, f.id = some i → mf < i →
          f ∉ factsIncluded mem entry now) ∧
      (∀ ms, st.maxSummaryId = some ms →
        ∀ s ∈ mem.summaries, ∀ j, s.id = some j → ms < j →
          s ∉ summariesIncluded mem entry now ∧
          s ∉ blockRecentSummaries mem entry now)) := by
  constructor
  · intro hval
    have hf : factsIncluded mem entry now = mem.facts := by
      cases entry with
      | none => rfl
      | some st => simp [factsIncluded, hval]
    have hs : summariesIncluded mem entry now = mem.summaries := by
      cases entry with
      | none => rfl
      | some st => simp [summariesIncluded, hval]
    refine ⟨hf, hs, ?_⟩
    intro f hfm
    rw [blockFactTexts, hf]
    exact List.mem_map_of_mem _ hfm
  · rintro st rfl hval
    constructor
    · intro mf hmf f hfm i hid hlt hmem
      simp only [factsIncluded, hval, if_pos, hmf] at hmem
      have h2 := (List.mem_filter.mp hmem).2
      simp [includeFactB, hid] at h2
      omega
    · intro ms hms s hsm j hid hlt
      have hnotin : s ∉ summariesIncluded mem (some st) now := by
        intro hmem
        simp only [summariesIncluded, hval, if_pos, hms] at hmem
        have h2 := (List.mem_filter.mp hmem).2
        simp [includeSummaryB, hid] at h2
        omega
      refine ⟨hnotin, fun hin => hnotin ?_⟩
      simp only [blockRecentSummaries] at hin
      have h3 := List.mem_of_mem_take hin
      exact ((sortByTsDesc_perm (·.timestamp) _).mem_iff).mp h3

theorem c1_memory_cutoff_witness :
    cacheValidB none 0 = false ∧
    factsIncluded memC1w none 0 = memC1w.facts ∧
    cacheValidB (some entryC1w) 0 = true ∧
    (⟨some 9, "over"⟩ : MemFact) ∉ factsIncluded memC1w (some entryC1w) 0 := by
  refine ⟨by decide, ((c1_memory_cutoff memC1w none 0).1 (by decide)).1, by decide, ?_⟩
  exact ((c1_memory_cutoff memC1w (some entryC1w) 0).2 entryC1w rfl (by decide)).1 5 rfl
    ⟨some 9, "over"⟩ (by decide) 9 rfl (by decide)

/- ===================== Claim C2 ===================== -/

/-- Claim C2 (amended): with an unexpired breakpoint whose anchor message
is still present, a second assembly run after one message was appended and
after new facts and summaries with ids above the recorded maxima were
added (catalog unchanged) produces byte-identical system-block text, and
both cache steps leave the stored entry untouched — provided that, when
the summaries store was empty at the first run, either no summary was
added in between or the persona has no legacy currentSummary (the
counterexample shows the legacy Current State block otherwise vanishes,
because its guard tests the unfiltered summaries list). -/
theorem c2_cached_prefix_stability
    (sp : Option String) (titles : List String) (att refs : List (String × String))
    (mem : PMemory) (newFacts : List MemFact) (newSummaries : List MemSummary)
    (nf2 ns2 : Option Nat)
    (st : CacheEntry) (t1 t2 : Int) (mf ms : Nat) (k : Nat)
    (msgs1 : List Msg) (newMsg : Msg) (pMaxF pMaxS : Nat)
    (hmf : st.maxFactId = some mf) (hms : st.maxSummaryId = some ms)
    (hv1 : t1 - st.timestamp < ttlMs) (hv2 : t2 - st.timestamp < ttlMs)
    (hnf : ∀ f ∈ newFacts, ∃ i, f.id = some i ∧ mf < i)
    (hns : ∀ s ∈ newSummaries, ∃ j, s.id = some j ∧ ms < j)
    (hguard : 3 < msgs1.length) (hids : msgs1.any msgHasNumericId = true)
    (hmid : st.messageId ≠ 0)
    (hanchor : jsFindIndex (fun m => m.id == some st.messageId) msgs1 = some k)
    (hamend : mem.summaries = [] → newSummaries = [] ∨ mem.currentSummary = none) :
    (cacheStep msgs1 (some st) pMaxF pMaxS t1).entry = some st ∧
    (cacheStep (msgs1 ++ [newMsg]) (some st) pMaxF pMaxS t2).entry = some st ∧
    assembleSystemContent
        ⟨sp, some { mem with facts := mem.facts ++ newFacts, summaries := mem.summaries ++ newSummaries, nextFactId := nf2, nextSummaryId := ns2 }, titles, att, refs⟩
        (some st) t2 =
      assembleSystemContent ⟨sp, some mem, titles, att, refs⟩ (some st) t1 := by
  have hguardP : 3 < msgs1.length ∧ msgs1.any msgHasNumericId = true := ⟨hguard, hids⟩
  have hstep1 : cacheStep msgs1 (some st) pMaxF pMaxS t1 = ⟨some st, some k⟩ := by
    unfold cacheStep
    rw [if_pos hguardP]
    simp only [hanchor]
    rw [if_pos (⟨hv1, hmid⟩ : t1 - st.timestamp < ttlMs ∧ st.messageId ≠ 0)]
  have hguard2 : 3 < (msgs1 ++ [newMsg]).length := by
    simp only [List.length_append, List.length_cons, List.length_nil]
    omega
  have hids2 : (msgs1 ++ [newMsg]).any msgHasNumericId = true := by
    rw [List.any_append, hids, Bool.true_or]
  have hanchor2 := jsFindIndex_append_of_some (fun m => m.id == some st.messageId)
    msgs1 [newMsg] k hanchor
  have hguard2P : 3 < (msgs1 ++ [newMsg]).length ∧
      (msgs1 ++ [newMsg]).any msgHasNumericId = true := ⟨hguard2, hids2⟩
  have hstep2 : cacheStep (msgs1 ++ [newMsg]) (some st) pMaxF pMaxS t2 = ⟨some st, some k⟩ := by
    unfold cacheStep
    rw [if_pos hguard2P]
    simp only [hanchor2]
    rw [if_pos (⟨hv2, hmid⟩ : t2 - st.timestamp < ttlMs ∧ st.messageId ≠ 0)]
  have hcv1 : cacheValidB (some st) t1 = true := by
    unfold cacheValidB; exact decide_eq_true hv1
  have hcv2 : cacheValidB (some st) t2 = true := by
    unfold cacheValidB; exact decide_eq_true hv2
  have hfnew : ∀ f ∈ newFacts, ¬ includeFactB mf f = true := by
    intro f hf
    obtain ⟨i, hid, hlt⟩ := hnf f hf
    have hle : ¬ i ≤ mf := by omega
    simp [includeFactB, hid, hle]
  have hsnew : ∀ s ∈ newSummaries, ¬ includeSummaryB ms s = true := by
    intro s hs
    obtain ⟨j, hid, hlt⟩ := hns s hs
    have hle : ¬ j ≤ ms := by omega
    simp [includeSummaryB, hid, hle]
  have hFI : factsIncluded { mem with facts := mem.facts ++ newFacts, summaries := mem.summaries ++ newSummaries, nextFactId := nf2, nextSummaryId := ns2 } (some st) t2 = factsIncluded mem (some st) t1 := by
    simp only [factsIncluded, hcv1, hcv2, hmf, if_true]
    rw [List.filter_append, List.filter_eq_nil_iff.mpr hfnew, List.append_nil]
  have hSI : summariesIncluded { mem with facts := mem.facts ++ newFacts, summaries := mem.summaries ++ newSummaries, nextFactId := nf2, nextSummaryId := ns2 } (some st) t2 = summariesIncluded mem (some st) t1 := by
    simp only [summariesIncluded, hcv1, hcv2, hms, if_true]
    rw [List.filter_append, List.filter_eq_nil_iff.mpr hsnew, List.append_nil]
  have hp3core : (mem.summaries ++ newSummaries).isEmpty = mem.summaries.isEmpty ∨
      mem.currentSummary = none := by
    by_cases hm : mem.summaries = []
    · cases hamend hm with
      | inl hnew => left; rw [hm, hnew]; rfl
      | inr hnone => right; exact hnone
    · left
      have h1 : mem.summaries.isEmpty = false := by
        simpa [List.isEmpty_iff] using hm
      have h2 : (mem.summaries ++ newSummaries).isEmpty = false := by
        simp [List.isEmpty_iff, hm]
      rw [h1, h2]
  have hparts : memoryParts { mem with facts := mem.facts ++ newFacts, summaries := mem.summaries ++ newSummaries, nextFactId := nf2, nextSummaryId := ns2 } (some st) t2 = memoryParts mem (some st) t1 := by
    simp only [memoryParts, blockSummaryTexts, blockRecentSummaries, hFI, hSI]
    rcases hp3core with he | hn
    · rw [he]
    · rw [hn]
  have hblock : memoryBlockOf { mem with facts := mem.facts ++ newFacts, summaries := mem.summaries ++ newSummaries, nextFactId := nf2, nextSummaryId := ns2 } (some st) t2 = memoryBlockOf mem (some st) t1 := by
    unfold memoryBlockOf
    rw [hparts]
  refine ⟨by rw [hstep1], by rw [hstep2], ?_⟩
  simp only [assembleSystemContent, systemMessagesOf]
  rw [hblock]

theorem c2_cached_prefix_stability_witness :
    assembleSystemContent
        ⟨none, some { memC2w with facts := memC2w.facts ++ [⟨some 2, "grew"⟩], summaries := memC2w.summaries ++ [⟨some 2, "[t2] later", 7⟩], nextFactId := some 3, nextSummaryId := some 3 }, ["doc"], [], []⟩
        (some entryC2w) 9 =
      assembleSystemContent ⟨none, some memC2w, ["doc"], [], []⟩ (some entryC2w) 5 := by
  exact (c2_cached_prefix_stability none ["doc"] [] [] memC2w [⟨some 2, "grew"⟩]
    [⟨some 2, "[t2] later", 7⟩] (some 3) (some 3) entryC2w 5 9 1 1 1 msgsC2w
    ⟨some 6, "user", "f"⟩ 1 1 rfl rfl (by decide) (by decide)
    (by intro f hf; rw [List.mem_singleton] at hf; subst hf; exact ⟨2, rfl, by norm_num⟩)
    (by intro s hs; rw [List.mem_singleton] at hs; subst hs; exact ⟨2, rfl, by norm_num⟩)
    (by decide) (by decide) (by decide) (by decide) (by decide)).2.2

/-- Claim C2 counterexample: a persona with a legacy currentSummary and an
empty summaries store, then one summary saved mid-TTL with an id above the
recorded maxSummaryId.  The breakpoint is valid for both runs and memory
only grew above the recorded maxima, yet the two assembled system texts
differ: the legacy Current State block is guarded by the unfiltered
summaries list (server.js line 1765) and disappears on the second run. -/
theorem c2_counterexample :
    cacheValidB (some entryC2) 0 = true ∧
    entryC2.maxSummaryId = some 0 ∧
    (save_summary memC2a "10.02.2026" 10 "Neues").summaries =
      [⟨some 1, "[10.02.2026] Neues", 10⟩] ∧
    assembleSystemContent ⟨none, some (save_summary memC2a "10.02.2026" 10 "Neues"), [], [], []⟩
        (some entryC2) 0 ≠
      assembleSystemContent ⟨none, some memC2a, [], [], []⟩ (some entryC2) 0 := by
  decide

/- ===================== Claim C3 ===================== -/

theorem save_fact_of_dup (m : PMemory) (t : String)
    (h : isDuplicateFact m.facts (jsTrim t) = true) : save_fact m t = m := by
  simp only [save_fact, h, if_true]

theorem save_fact_of_new (m : PMemory) (t : String)
    (h : isDuplicateFact m.facts (jsTrim t) = false) :
    save_fact m t = { m with facts := m.facts ++ [⟨some (effNextFact m), jsTrim t⟩],
                             nextFactId := some (effNextFact m + 1) } := by
  simp only [save_fact, h, Bool.false_eq_true, if_false]

/-- Claim C3 (confirmed): save_fact is idempotent under near-duplicate
input: if some existing fact shares its first 50 characters with the new
(trimmed) fact text, or the word-overlap ratio exceeds 0.8, the stored
memory is left unchanged; and submitting the same fact text twice stores
exactly one new entry (the second execution is a no-op). -/
theorem c3_save_fact_idempotent (m : PMemory) (t : String) :
    ((∃ e ∈ m.facts, strTake 50 e.fact = strTake 50 (jsTrim t) ∨
        wordOverlapExceeds e.fact (jsTrim t) = true) →
      save_fact m t = m) ∧
    (save_fact (save_fact m t) t).facts = (save_fact m t).facts ∧
    (isDuplicateFact m.facts (jsTrim t) = false →
      (save_fact (save_fact m t) t).facts =
        m.facts ++ [⟨some (effNextFact m), jsTrim t⟩]) := by
  have hdup_of : (∃ e ∈ m.facts, strTake 50 e.fact = strTake 50 (jsTrim t) ∨
      wordOverlapExceeds e.fact (jsTrim t) = true) →
      isDuplicateFact m.facts (jsTrim t) = true := by
    rintro ⟨e, he, hor⟩
    unfold isDuplicateFact
    rw [List.any_eq_true]
    refine ⟨e, he, ?_⟩
    rw [Bool.or_eq_true]
    cases hor with
    | inl h => left; exact beq_iff_eq.mpr h
    | inr h => right; exact h
  have hsecond : (save_fact (save_fact m t) t).facts = (save_fact m t).facts ∧
      (isDuplicateFact m.facts (jsTrim t) = false →
        (save_fact (save_fact m t) t).facts =
          m.facts ++ [⟨some (effNextFact m), jsTrim t⟩]) := by
    by_cases hd : isDuplicateFact m.facts (jsTrim t) = true
    · have e1 := save_fact_of_dup m t hd
      constructor
      · rw [e1, e1]
      · intro hf
        rw [hf] at hd
        exact Bool.noConfusion hd
    · have hd' : isDuplicateFact m.facts (jsTrim t) = false := by
        cases h : isDuplicateFact m.facts (jsTrim t) with
        | true => exact absurd h hd
        | false => rfl
      have e1 := save_fact_of_new m t hd'
      have hd2 : isDuplicateFact (save_fact m t).facts (jsTrim t) = true := by
        rw [e1]
        unfold isDuplicateFact
        rw [List.any_eq_true]
        refine ⟨⟨some (effNextFact m), jsTrim t⟩,
          List.mem_append_right _ (List.mem_singleton.mpr rfl), ?_⟩
        rw [Bool.or_eq_true]
        left
        exact beq_iff_eq.mpr rfl
      have e2 := save_fact_of_dup (save_fact m t) t hd2
      rw [e2, e1]
      exact ⟨rfl, fun _ => rfl⟩
  exact ⟨fun hx => save_fact_of_dup m t (hdup_of hx), hsecond.1, hsecond.2⟩

theorem c3_save_fact_idempotent_witness :
    (∃ e ∈ memC3.facts,
        strTake 50 e.fact = strTake 50 (jsTrim "User likes coffee with oat milk") ∨
        wordOverlapExceeds e.fact (jsTrim "User likes coffee with oat milk") = true) ∧
    save_fact memC3 "User likes coffee with oat milk" = memC3 := by
  refine ⟨⟨⟨some 1, "User likes coffee with oat milk"⟩, by decide, Or.inl (by decide)⟩, ?_⟩
  exact (c3_save_fact_idempotent memC3 "User likes coffee with oat milk").1
    ⟨⟨some 1, "User likes coffee with oat milk"⟩, by decide, Or.inl (by decide)⟩

/- ===================== Claim C4 ===================== -/

/-- Claim C4 (confirmed): the per-conversation breakpoint state machine,
inside its applicability guard (more than 3 messages, some message with a
numeric id, the anchor position holding a message with a truthy id).  With
no entry, an expired entry (expiry modelled exactly as the source test
`now - timestamp < TTL` failing), or an entry whose anchor message id is
not found, a fresh breakpoint is minted at position length - 3 - 1
carrying the supplied persona max fact/summary ids and timestamp now;
with an unexpired entry whose anchor id is found, the entry is kept
unchanged and the found position is the cache boundary. -/
theorem c4_breakpoint_state_machine (msgs : List Msg) (entry : Option CacheEntry)
    (pMaxF pMaxS : Nat) (now : Int) (a : Nat)
    (hguard : 3 < msgs.length) (hids : msgs.any msgHasNumericId = true)
    (hanchor : (msgs[msgs.length - 4]?).bind (·.id) = some a) (ha : a ≠ 0) :
    (entry = none →
      cacheStep msgs entry pMaxF pMaxS now =
        ⟨some ⟨a, some pMaxF, some pMaxS, now⟩, some (msgs.length - 4)⟩) ∧
    (∀ st, entry = some st → ttlMs ≤ now - st.timestamp →
      cacheStep msgs entry pMaxF pMaxS now =
        ⟨some ⟨a, some pMaxF, some pMaxS, now⟩, some (msgs.length - 4)⟩) ∧
    (∀ st, entry = some st →
      jsFindIndex (fun m => m.id == some st.messageId) msgs = none →
      cacheStep msgs entry pMaxF pMaxS now =
        ⟨some ⟨a, some pMaxF, some pMaxS, now⟩, some (msgs.length - 4)⟩) ∧
    (∀ st k, entry = some st → now - st.timestamp < ttlMs → st.messageId ≠ 0 →
      jsFindIndex (fun m => m.id == some st.messageId) msgs = some k →
      cacheStep msgs entry pMaxF pMaxS now = ⟨some st, some k⟩) := by
  have hguardP : 3 < msgs.length ∧ msgs.any msgHasNumericId = true := ⟨hguard, hids⟩
  refine ⟨?_, ?_, ?_, ?_⟩
  · rintro rfl
    unfold cacheStep
    rw [if_pos hguardP]
    simp only [hanchor]
    rw [if_pos ha]
  · rintro st rfl hexp
    unfold cacheStep
    rw [if_pos hguardP]
    simp only [hanchor]
    have hcond : ¬ (now - st.timestamp < ttlMs ∧ st.messageId ≠ 0) := by
      rintro ⟨h1, _⟩; omega
    rw [if_neg hcond]
    rw [if_pos ha]
  · rintro st rfl hfind
    unfold cacheStep
    rw [if_pos hguardP]
    simp only [hanchor]
    by_cases hcond : now - st.timestamp < ttlMs ∧ st.messageId ≠ 0
    · rw [if_pos hcond, hfind]
      rw [if_pos ha]
    · rw [if_neg hcond]
      rw [if_pos ha]
  · rintro st k rfl hv hm hfind
    unfold cacheStep
    rw [if_pos hguardP]
    simp only [hanchor]
    rw [if_pos (⟨hv, hm⟩ : now - st.timestamp < ttlMs ∧ st.messageId ≠ 0)]
    rw [hfind]

theorem c4_breakpoint_state_machine_witness :
    cacheStep msgsC2w none 7 8 100 = ⟨some ⟨2, some 7, some 8, 100⟩, some 1⟩ ∧
    cacheStep msgsC2w (some ⟨3, some 7, some 8, 50⟩) 9 9 100 =
      ⟨some ⟨3, some 7, some 8, 50⟩, some 2⟩ := by
  constructor
  · exact (c4_breakpoint_state_machine msgsC2w none 7 8 100 2 (by decide) (by decide)
      (by decide) (by decide)).1 rfl
  · exact (c4_breakpoint_state_machine msgsC2w (some ⟨3, some 7, some 8, 50⟩) 9 9 100 2
      (by decide) (by decide) (by decide) (by decide)).2.2.2 ⟨3, some 7, some 8, 50⟩ 2 rfl
      (by decide) (by decide) (by decide)

/- ===================== Claim C5 ===================== -/

theorem factIds_append_some (l : List MemFact) (n : Nat) (t : String) :
    factIds (l ++ [⟨some n, t⟩]) = factIds l ++ [n] := by
  simp [factIds]

theorem factIds_append_none (l : List MemFact) (t : String) :
    factIds (l ++ [⟨none, t⟩]) = factIds l := by
  simp [factIds]

theorem summaryIds_append_some (l : List MemSummary) (n : Nat) (t : String) (ts : Int) :
    summaryIds (l ++ [⟨some n, t, ts⟩]) = summaryIds l ++ [n] := by
  simp [summaryIds]

theorem pairwise_lt_append_singleton (l : List Nat) (n : Nat)
    (hp : l.Pairwise (· < ·)) (hb : ∀ i ∈ l, i < n) :
    (l ++ [n]).Pairwise (· < ·) := by
  rw [List.pairwise_append]
  refine ⟨hp, List.pairwise_singleton _ _, ?_⟩
  intro x hx y hy
  rw [List.mem_singleton] at hy
  subst hy
  exact hb x hx

theorem save_summary_eq (m : PMemory) (ts : String) (tsMs : Int) (summary : String) :
    save_summary m ts tsMs summary =
      { m with summaries := m.summaries ++ [⟨some (effNextSummary m), "[" ++ ts ++ "] " ++ jsTrim summary, tsMs⟩], nextSummaryId := some (effNextSummary m + 1) } := rfl

theorem agentSaveFact_of_new (m : PMemory) (t : String)
    (h : isDuplicateFact m.facts (jsTrim t) = false) :
    agentSaveFact m t = { m with facts := m.facts ++ [⟨none, jsTrim t⟩] } := by
  simp only [agentSaveFact, h, Bool.false_eq_true, if_false]

/-- Claim C5 (confirmed): under the memory invariant, the assigned fact
and summary ids are strictly increasing in insertion order and never
repeated, the invariant is preserved by save_fact, by the agent-path
save_memory and by save_summary (so it holds across arbitrary sequences
of rapid successive saves), and every successful save assigns exactly the
effective next counter value and advances the counter by one. -/
theorem c5_monotonic_ids (m : PMemory) (t ts summary : String) (tsMs : Int)
    (hInv : memInv m) :
    memInv (save_fact m t) ∧
    memInv (agentSaveFact m t) ∧
    memInv (save_summary m ts tsMs summary) ∧
    (factIds m.facts).Pairwise (· < ·) ∧ (factIds m.facts).Nodup ∧
    (summaryIds m.summaries).Pairwise (· < ·) ∧ (summaryIds m.summaries).Nodup ∧
    (isDuplicateFact m.facts (jsTrim t) = false →
      (save_fact m t).facts = m.facts ++ [⟨some (effNextFact m), jsTrim t⟩] ∧
      (save_fact m t).nextFactId = some (effNextFact m + 1)) ∧
    (save_summary m ts tsMs summary).summaries =
      m.summaries ++ [⟨some (effNextSummary m), "[" ++ ts ++ "] " ++ jsTrim summary, tsMs⟩] ∧
    (save_summary m ts tsMs summary).nextSummaryId = some (effNextSummary m + 1) := by
  obtain ⟨hfp, hfb, hsp, hsb⟩ := hInv
  have hsfInv : memInv (save_fact m t) := by
    by_cases hd : isDuplicateFact m.facts (jsTrim t) = true
    · rw [save_fact_of_dup m t hd]
      exact ⟨hfp, hfb, hsp, hsb⟩
    · have hd' : isDuplicateFact m.facts (jsTrim t) = false := by
        cases h : isDuplicateFact m.facts (jsTrim t) with
        | true => exact absurd h hd
        | false => rfl
      rw [save_fact_of_new m t hd']
      have hA : (factIds (m.facts ++
          [(⟨some (effNextFact m), jsTrim t⟩ : MemFact)])).Pairwise (· < ·) := by
        rw [factIds_append_some]
        exact pairwise_lt_append_singleton _ _ hfp hfb
      have hB : ∀ i ∈ factIds (m.facts ++ [(⟨some (effNextFact m), jsTrim t⟩ : MemFact)]),
          i < effNextFact m + 1 := by
        intro i hi
        rw [factIds_append_some] at hi
        rcases List.mem_append.mp hi with h | h
        · exact Nat.lt_succ_of_lt (hfb i h)
        · rw [List.mem_singleton] at h
          subst h
          exact Nat.lt_succ_self _
      have hC : effNextFact { m with facts := m.facts ++ [(⟨some (effNextFact m), jsTrim t⟩ : MemFact)], nextFactId := some (effNextFact m + 1) } = effNextFact m + 1 := by
        simp [effNextFact, jsOrNat]
      refine ⟨hA, ?_, hsp, hsb⟩
      intro i hi
      rw [hC]
      exact hB i hi
  have hagInv : memInv (agentSaveFact m t) := by
    by_cases hd : isDuplicateFact m.facts (jsTrim t) = true
    · have heq : agentSaveFact m t = m := by
        simp only [agentSaveFact, hd, if_true]
      rw [heq]
      exact ⟨hfp, hfb, hsp, hsb⟩
    · have hd' : isDuplicateFact m.facts (jsTrim t) = false := by
        cases h : isDuplicateFact m.facts (jsTrim t) with
        | true => exact absurd h hd
        | false => rfl
      rw [agentSaveFact_of_new m t hd']
      have hA : (factIds (m.facts ++ [(⟨none, jsTrim t⟩ : MemFact)])).Pairwise (· < ·) := by
        rw [factIds_append_none]
        exact hfp
      have hmono : effNextFact m ≤
          effNextFact { m with facts := m.facts ++ [(⟨none, jsTrim t⟩ : MemFact)] } := by
        have hCeq : effNextFact { m with facts := m.facts ++ [(⟨none, jsTrim t⟩ : MemFact)] } = jsOrNat m.nextFactId ((m.facts ++ [(⟨none, jsTrim t⟩ : MemFact)]).length + 1) := rfl
        rw [hCeq]
        unfold effNextFact jsOrNat
        cases m.nextFactId with
        | none =>
          simp only [List.length_append, List.length_cons, List.length_nil]
          omega
        | some n =>
          by_cases h : n = 0 <;> simp [h]
      refine ⟨hA, ?_, hsp, hsb⟩
      intro i hi
      rw [factIds_append_none] at hi
      exact Nat.lt_of_lt_of_le (hfb i hi) hmono
  have hssInv : memInv (save_summary m ts tsMs summary) := by
    rw [save_summary_eq]
    have hA : (summaryIds (m.summaries ++
        [(⟨some (effNextSummary m), "[" ++ ts ++ "] " ++ jsTrim summary, tsMs⟩ : MemSummary)])).Pairwise (· < ·) := by
      rw [summaryIds_append_some]
      exact pairwise_lt_append_singleton _ _ hsp hsb
    have hB : ∀ j ∈ summaryIds (m.summaries ++
        [(⟨some (effNextSummary m), "[" ++ ts ++ "] " ++ jsTrim summary, tsMs⟩ : MemSummary)]),
        j < effNextSummary m + 1 := by
      intro j hj
      rw [summaryIds_append_some] at hj
      rcases List.mem_append.mp hj with h | h
      · exact Nat.lt_succ_of_lt (hsb j h)
      · rw [List.mem_singleton] at h
        subst h
        exact Nat.lt_succ_self _
    have hC : effNextSummary { m with summaries := m.summaries ++ [(⟨some (effNextSummary m), "[" ++ ts ++ "] " ++ jsTrim summary, tsMs⟩ : MemSummary)], nextSummaryId := some (effNextSummary m + 1) } = effNextSummary m + 1 := by
      simp [effNextSummary, jsOrNat]
    refine ⟨hfp, hfb, hA, ?_⟩
    intro j hj
    rw [hC]
    exact hB j hj
  refine ⟨hsfInv, hagInv, hssInv, hfp, hfp.imp (fun h => Nat.ne_of_lt h), hsp,
    hsp.imp (fun h => Nat.ne_of_lt h), ?_, rfl, rfl⟩
  intro hd'
  rw [save_fact_of_new m t hd']
  exact ⟨rfl, rfl⟩

theorem c5_monotonic_ids_witness :
    memInv memC5w ∧
    (save_fact memC5w "brand new fact").facts =
      memC5w.facts ++ [⟨some 3, "brand new fact"⟩] ∧
    memInv (save_fact memC5w "brand new fact") := by
  refine ⟨by decide, ?_, ?_⟩
  · exact ((c5_monotonic_ids memC5w "brand new fact" "t" "s" 0 (by decide)).2.2.2.2.2.2.2.1
      (by decide)).1
  · exact (c5_monotonic_ids memC5w "brand new fact" "t" "s" 0 (by decide)).1

/- ===================== Claim C8 ===================== -/

theorem loopGo_succ (oracle : Nat → ModelTurn) (tsStr : String) (tsMs : Int)
    (n i : Nat) (st : ChatState) :
    loopGo oracle tsStr tsMs (n + 1) i st =
      if (oracle i).tool_calls.isEmpty = true then ⟨some (oracle i), st, i + 1⟩
      else if needsFollowUp (oracle i) = true then
        loopGo oracle tsStr tsMs n (i + 1) (dispatchTurn tsStr tsMs st (oracle i))
      else ⟨some (oracle i), dispatchTurn tsStr tsMs st (oracle i), i + 1⟩ := rfl

theorem loopGo_calls_le (oracle : Nat → ModelTurn) (tsStr : String) (tsMs : Int) :
    ∀ fuel i st, (loopGo oracle tsStr tsMs fuel i st).modelCalls ≤ i + fuel := by
  intro fuel
  induction fuel with
  | zero =>
    intro i st
    simp [loopGo]
  | succ n ih =>
    intro i st
    rw [loopGo_succ]
    by_cases h1 : (oracle i).tool_calls.isEmpty = true
    · rw [if_pos h1]
      show i + 1 ≤ i + (n + 1)
      omega
    · rw [if_neg h1]
      by_cases h2 : needsFollowUp (oracle i) = true
      · rw [if_pos h2]
        have := ih (i + 1) (dispatchTurn tsStr tsMs st (oracle i))
        omega
      · rw [if_neg h2]
        show i + 1 ≤ i + (n + 1)
        omega

theorem loopGo_calls_ge (oracle : Nat → ModelTurn) (tsStr : String) (tsMs : Int) :
    ∀ fuel i st, i ≤ (loopGo oracle tsStr tsMs fuel i st).modelCalls := by
  intro fuel
  induction fuel with
  | zero =>
    intro i st
    simp [loopGo]
  | succ n ih =>
    intro i st
    rw [loopGo_succ]
    by_cases h1 : (oracle i).tool_calls.isEmpty = true
    · rw [if_pos h1]
      show i ≤ i + 1
      omega
    · rw [if_neg h1]
      by_cases h2 : needsFollowUp (oracle i) = true
      · rw [if_pos h2]
        have := ih (i + 1) (dispatchTurn tsStr tsMs st (oracle i))
        omega
      · rw [if_neg h2]
        show i ≤ i + 1
        omega

theorem loopGo_calls_ge_succ (oracle : Nat → ModelTurn) (tsStr : String) (tsMs : Int) :
    ∀ n i st, i + 1 ≤ (loopGo oracle tsStr tsMs (n + 1) i st).modelCalls := by
  intro n i st
  rw [loopGo_succ]
  by_cases h1 : (oracle i).tool_calls.isEmpty = true
  · rw [if_pos h1]
  · rw [if_neg h1]
    by_cases h2 : needsFollowUp (oracle i) = true
    · rw [if_pos h2]
      exact loopGo_calls_ge oracle tsStr tsMs n (i + 1) _
    · rw [if_neg h2]

theorem needsFollowUp_ne_nil (turn : ModelTurn) (h : needsFollowUp turn = true) :
    turn.tool_calls.isEmpty = false := by
  unfold needsFollowUp at h
  rw [List.any_eq_true] at h
  obtain ⟨x, hx, _⟩ := h
  cases ht : turn.tool_calls with
  | nil =>
    rw [ht] at hx
    cases hx
  | cons a l => rfl

/-- Claim C8 (confirmed): the tool-use loop performs at most 3 model
calls; a second iteration happens exactly when the first turn included a
search_knowledge call; a turn with tool calls but no search_knowledge
applies the dispatch side effects and terminates with that same turn as
the final message after one model call; and a turn without tool calls
terminates immediately with no side effects. -/
theorem c8_loop_termination (oracle : Nat → ModelTurn) (tsStr : String) (tsMs : Int)
    (st : ChatState) :
    (chatLoop oracle tsStr tsMs st).modelCalls ≤ 3 ∧
    (2 ≤ (chatLoop oracle tsStr tsMs st).modelCalls ↔ needsFollowUp (oracle 0) = true) ∧
    ((oracle 0).tool_calls ≠ [] → needsFollowUp (oracle 0) = false →
      (chatLoop oracle tsStr tsMs st).finalTurn = some (oracle 0) ∧
      (chatLoop oracle tsStr tsMs st).modelCalls = 1 ∧
      (chatLoop oracle tsStr tsMs st).state = dispatchTurn tsStr tsMs st (oracle 0)) ∧
    ((oracle 0).tool_calls = [] →
      (chatLoop oracle tsStr tsMs st).finalTurn = some (oracle 0) ∧
      (chatLoop oracle tsStr tsMs st).state = st ∧
      (chatLoop oracle tsStr tsMs st).modelCalls = 1) := by
  have hle := loopGo_calls_le oracle tsStr tsMs 3 0 st
  have hone : needsFollowUp (oracle 0) = false →
      (chatLoop oracle tsStr tsMs st).modelCalls = 1 := by
    intro h2
    unfold chatLoop
    rw [loopGo_succ]
    by_cases h1 : (oracle 0).tool_calls.isEmpty = true
    · rw [if_pos h1]
    · rw [if_neg h1, if_neg (by rw [h2]; exact Bool.noConfusion)]
  refine ⟨hle, ⟨?_, ?_⟩, ?_, ?_⟩
  · intro h2
    cases hn : needsFollowUp (oracle 0) with
    | true => rfl
    | false =>
      rw [hone hn] at h2
      omega
  · intro hn
    have h1 := needsFollowUp_ne_nil (oracle 0) hn
    unfold chatLoop
    rw [loopGo_succ, if_neg (by rw [h1]; exact Bool.noConfusion), if_pos hn]
    exact loopGo_calls_ge_succ oracle tsStr tsMs 1 (0 + 1) _
  · intro hne hn
    have h1 : ¬ (oracle 0).tool_calls.isEmpty = true := by
      cases ht : (oracle 0).tool_calls with
      | nil => exact absurd ht hne
      | cons a l => exact Bool.noConfusion
    unfold chatLoop
    rw [loopGo_succ, if_neg h1, if_neg (by rw [hn]; exact Bool.noConfusion)]
    exact ⟨rfl, rfl, rfl⟩
  · intro hnil
    have h1 : (oracle 0).tool_calls.isEmpty = true := by rw [hnil]; rfl
    unfold chatLoop
    rw [loopGo_succ, if_pos h1]
    exact ⟨rfl, rfl, rfl⟩

theorem c8_loop_termination_witness :
    c8Turn.tool_calls ≠ [] ∧ needsFollowUp c8Turn = false ∧
    (chatLoop (fun _ => c8Turn) "ts" 0 (initChatState memEmpty [])).modelCalls = 1 ∧
    (chatLoop (fun _ => c8Turn) "ts" 0 (initChatState memEmpty [])).finalTurn = some c8Turn := by
  refine ⟨by decide, by decide, ?_, ?_⟩
  · exact ((c8_loop_termination (fun _ => c8Turn) "ts" 0 (initChatState memEmpty [])).2.2.1
      (by decide) (by decide)).2.1
  · exact ((c8_loop_termination (fun _ => c8Turn) "ts" 0 (initChatState memEmpty [])).2.2.1
      (by decide) (by decide)).1

/- ===================== Claim C9 ===================== -/

theorem strTake_length_le (n : Nat) (s : String) : (strTake n s).length ≤ n := by
  show (s.data.take n).length ≤ n
  rw [List.length_take]
  exact min_le_left _ _

theorem mkContext_le (allLines : List String) (i : Nat) :
    (mkContext allLines i).length ≤ 500 := by
  unfold mkContext
  exact strTake_length_le 500 _

theorem searchFileLines_le (title qLower : String) (allLines : List String) (limit : Int) :
    ∀ lines i acc, (acc.length : Int) < limit →
      ((searchFileLines title qLower allLines limit i lines acc).length : Int) ≤ limit := by
  intro lines
  induction lines with
  | nil =>
    intro i acc h
    simp only [searchFileLines]
    omega
  | cons line rest ih =>
    intro i acc h
    simp only [searchFileLines]
    by_cases hm : strIncludes (jsToLower line) qLower = true
    · rw [if_pos hm]
      by_cases hl : limit ≤ (((acc ++ [(⟨title, i + 1, mkContext allLines i⟩ : SearchResult)]).length : Nat) : Int)
      · rw [if_pos hl]
        simp only [List.length_append, List.length_cons, List.length_nil]
        push_cast
        omega
      · rw [if_neg hl]
        exact ih (i + 1) _ (not_le.mp hl)
    · rw [if_neg hm]
      exact ih (i + 1) acc h

theorem searchFileLines_ctx (title qLower : String) (allLines : List String) (limit : Int) :
    ∀ lines i acc, (∀ r ∈ acc, r.context.length ≤ 500) →
      ∀ r ∈ searchFileLines title qLower allLines limit i lines acc,
        r.context.length ≤ 500 := by
  intro lines
  induction lines with
  | nil =>
    intro i acc hacc
    simpa only [searchFileLines] using hacc
  | cons line rest ih =>
    intro i acc hacc
    simp only [searchFileLines]
    by_cases hm : strIncludes (jsToLower line) qLower = true
    · rw [if_pos hm]
      have hacc2 : ∀ r ∈ acc ++ [(⟨title, i + 1, mkContext allLines i⟩ : SearchResult)],
          r.context.length ≤ 500 := by
        intro r hr
        rcases List.mem_append.mp hr with h | h
        · exact hacc r h
        · rw [List.mem_singleton] at h
          subst h
          exact mkContext_le allLines i
      by_cases hl : limit ≤ (((acc ++ [(⟨title, i + 1, mkContext allLines i⟩ : SearchResult)]).length : Nat) : Int)
      · rw [if_pos hl]
        exact hacc2
      · rw [if_neg hl]
        exact ih (i + 1) _ hacc2
    · rw [if_neg hm]
      exact ih (i + 1) acc hacc

theorem searchKnowledgeGo_le (qLower : String) (limit : Int) :
    ∀ files acc, (acc.length : Int) < limit →
      ((searchKnowledgeGo qLower limit files acc).length : Int) ≤ limit := by
  intro files
  induction files with
  | nil =>
    intro acc h
    simp only [searchKnowledgeGo]
    omega
  | cons f rest ih =>
    intro acc h
    simp only [searchKnowledgeGo]
    by_cases hc : f.content = ""
    · rw [if_pos hc]
      exact ih acc h
    · rw [if_neg hc]
      by_cases hl : limit ≤ ((searchFileLines f.title qLower (jsSplitNl f.content) limit 0
          (jsSplitNl f.content) acc).length : Int)
      · rw [if_pos hl]
        exact searchFileLines_le f.title qLower (jsSplitNl f.content) limit
          (jsSplitNl f.content) 0 acc h
      · rw [if_neg hl]
        exact ih _ (not_le.mp hl)

theorem searchKnowledgeGo_ctx (qLower : String) (limit : Int) :
    ∀ files acc, (∀ r ∈ acc, r.context.length ≤ 500) →
      ∀ r ∈ searchKnowledgeGo qLower limit files acc, r.context.length ≤ 500 := by
  intro files
  induction files with
  | nil =>
    intro acc hacc
    simpa only [searchKnowledgeGo] using hacc
  | cons f rest ih =>
    intro acc hacc
    simp only [searchKnowledgeGo]
    by_cases hc : f.content = ""
    · rw [if_pos hc]
      exact ih acc hacc
    · rw [if_neg hc]
      have hmid := searchFileLines_ctx f.title qLower (jsSplitNl f.content) limit
        (jsSplitNl f.content) 0 acc hacc
      by_cases hl : limit ≤ ((searchFileLines f.title qLower (jsSplitNl f.content) limit 0
          (jsSplitNl f.content) acc).length : Int)
      · rw [if_pos hl]
        exact hmid
      · rw [if_neg hl]
        exact ih _ hmid

/-- Claim C9 (amended): for maxResults at least 1 (or omitted, defaulting
to 5), a search_knowledge execution returns at most min(maxResults, 10)
matches, and every match context is at most 500 characters; the witness
shows maxResults = 3 against a file with 5 matching lines returning
exactly 3 results.  The claim as stated fails for maxResults = 0, where
one match is still returned (the limit test runs only after a push). -/
theorem c9_search_caps (files : List KFile) (q : String) (mr : Int) (hmr : 1 ≤ mr) :
    ((searchKnowledge files q (some mr)).length : Int) ≤ min mr 10 ∧
    ((searchKnowledge files q none).length : Int) ≤ 5 ∧
    (∀ r ∈ searchKnowledge files q (some mr), r.context.length ≤ 500) ∧
    (∀ r ∈ searchKnowledge files q none, r.context.length ≤ 500) := by
  have hmin : (1 : Int) ≤ min mr 10 := le_min hmr (by norm_num)
  refine ⟨?_, ?_, ?_, ?_⟩
  · exact searchKnowledgeGo_le (jsToLower q) (min mr 10) files [] (by simpa using hmin)
  · have h5 : ((searchKnowledgeGo (jsToLower q) (min (5 : Int) 10) files []).length : Int) ≤
        min (5 : Int) 10 :=
      searchKnowledgeGo_le (jsToLower q) (min (5 : Int) 10) files [] (by norm_num)
    calc ((searchKnowledge files q none).length : Int) ≤ min (5 : Int) 10 := h5
      _ ≤ 5 := by norm_num
  · exact searchKnowledgeGo_ctx (jsToLower q) (min mr 10) files [] (by intro r hr; cases hr)
  · exact searchKnowledgeGo_ctx (jsToLower q) (min (5 : Int) 10) files [] (by intro r hr; cases hr)

theorem c9_search_caps_witness :
    (1 : Int) ≤ 3 ∧
    ((searchKnowledge [fileC9] "hit" (some 3)).length : Int) ≤ min 3 10 ∧
    (searchKnowledge [fileC9] "hit" (some 3)).length = 3 ∧
    (∀ r ∈ searchKnowledge [fileC9] "hit" (some 3), r.context.length ≤ 500) := by
  refine ⟨by norm_num, ?_, by decide, ?_⟩
  · exact (c9_search_caps [fileC9] "hit" 3 (by norm_num)).1
  · exact (c9_search_caps [fileC9] "hit" 3 (by norm_num)).2.2.1

/-- Claim C9 counterexample: with maxResults = 0 against a file with one
matching line, the handler returns 1 result although the claim bounds the
count by min(0, 10) = 0. -/
theorem c9_counterexample :
    (searchKnowledge [fileC9one] "hit" (some 0)).length = 1 ∧
    ¬ (((searchKnowledge [fileC9one] "hit" (some 0)).length : Int) ≤ min 0 10) := by
  constructor
  · decide
  · intro h
    have h1 : (searchKnowledge [fileC9one] "hit" (some 0)).length = 1 := by decide
    rw [h1] at h
    norm_num at h

/- ===================== Claim C10 ===================== -/

/-- Claim C10 (confirmed): the chat-endpoint memory filter keeps only
facts with a truthy numeric id (`f.id && f.id <= maxFactId`); a fact
stored without an id (as the autonomous-agent path stores them) is
excluded from the assembled context exactly when an unexpired breakpoint
exists, and included when the breakpoint has expired or is absent. -/
theorem c10_idless_fact_filter (mem : PMemory) (st : CacheEntry) (mf : Nat) (t1 t2 : Int)
    (f : MemFact) (s : String)
    (hmf : st.maxFactId = some mf) (hf : f ∈ mem.facts) (hid : f.id = none)
    (hv : t1 - st.timestamp < ttlMs) (hx : ttlMs ≤ t2 - st.timestamp) :
    f ∉ factsIncluded mem (some st) t1 ∧
    f ∈ factsIncluded mem (some st) t2 ∧
    (isDuplicateFact mem.facts (jsTrim s) = false →
      (agentSaveFact mem s).facts = mem.facts ++ [⟨none, jsTrim s⟩]) := by
  have hcv1 : cacheValidB (some st) t1 = true := by
    unfold cacheValidB
    exact decide_eq_true hv
  have hcv2 : cacheValidB (some st) t2 = false := by
    unfold cacheValidB
    exact decide_eq_false (by omega)
  refine ⟨?_, ?_, ?_⟩
  · intro hmem
    simp only [factsIncluded, hcv1, if_pos, hmf] at hmem
    have h2 := (List.mem_filter.mp hmem).2
    simp [includeFactB, hid] at h2
  · simp only [factsIncluded, hcv2, Bool.false_eq_true, if_false]
    exact hf
  · intro hd
    rw [agentSaveFact_of_new mem s hd]

theorem c10_idless_fact_filter_witness :
    (⟨none, "agent fact"⟩ : MemFact) ∈ memC10w.facts ∧
    (⟨none, "agent fact"⟩ : MemFact) ∉ factsIncluded memC10w (some entryC10w) 0 ∧
    (⟨none, "agent fact"⟩ : MemFact) ∈ factsIncluded memC10w (some entryC10w) 400000 := by
  refine ⟨by decide, ?_, ?_⟩
  · exact (c10_idless_fact_filter memC10w entryC10w 1 0 400000 ⟨none, "agent fact"⟩ "x"
      rfl (by decide) rfl (by decide) (by decide)).1
  · exact (c10_idless_fact_filter memC10w entryC10w 1 0 400000 ⟨none, "agent fact"⟩ "x"
      rfl (by decide) rfl (by decide) (by decide)).2.1
